import Mathlib

/-!
# Verification of the customers-service data-access and caching core

Shallow embedding of `src/index.js` (Express handlers over a Postgres
`customers` relation and a Redis cache), together with proofs and
refutations of the frozen specification claims.

Modelling conventions:
* The record store is a `List Customer`; each SQL statement is embedded as a
  pure function over that list, following standard Postgres semantics
  (negative or NaN `LIMIT`/`OFFSET` parameters raise; `SUM`/`AVG` of an empty
  set are `NULL`; `COUNT(*)` never is).
* The Redis cache is an association list from key strings to parsed cached
  values; `SETEX` conses a fresh entry, `DEL` removes exact-key matches,
  `GET` finds the newest entry.  Cache unavailability is a boolean on the
  state: when `redisUp = false` every Redis command raises, which the
  handlers observe through `Except`, mirroring the thrown promise rejection
  reaching each handler's `catch` block.
* JS truthiness of required string fields (`!tenant_id` etc.) is modelled by
  `truthy`; absent JSON/query fields are `Option.none`.  `null`-valued JSON
  fields are not distinguished from strings, as no claim depends on them.
* `bcrypt.hash` is an opaque injection (never compared or returned).
* `JSON.stringify` on the opaque `address` blob is the identity on the blob.
* The store-generated `id` column is not created by code under `src/`
  (it comes from the database schema).  Modelled from the spec: `id` is an
  "opaque unique identifier"; we render fresh integer ids in decimal.
-/

namespace CustomersService

/-- A row of the `customers` relation (§6 Record Store contract). -/
structure Customer where
  id : String
  tenant_id : String
  email : String
  password_hash : String
  full_name : Option String
  phone : Option String
  address : Option String
  loyalty_points : Int
  created_at : Nat
  updated_at : Nat
deriving DecidableEq

/-- Columns of the list SELECT (index.js line 97): no `loyalty_points`. -/
structure RowList where
  id : String
  email : String
  full_name : Option String
  phone : Option String
  address : Option String
  created_at : Nat
  updated_at : Nat
deriving DecidableEq

/-- Columns of the single-customer SELECT (index.js line 147). -/
structure RowGet where
  id : String
  email : String
  full_name : Option String
  phone : Option String
  address : Option String
  loyalty_points : Int
  created_at : Nat
  updated_at : Nat
deriving DecidableEq

/-- Columns of the INSERT RETURNING clause (index.js line 187). -/
structure RowCreate where
  id : String
  email : String
  full_name : Option String
  phone : Option String
  address : Option String
  created_at : Nat
deriving DecidableEq

/-- Columns of the UPDATE RETURNING clause (index.js line 243). -/
structure RowUpdate where
  id : String
  email : String
  full_name : Option String
  phone : Option String
  address : Option String
  loyalty_points : Int
  updated_at : Nat
deriving DecidableEq

def listProj (c : Customer) : RowList :=
  ⟨c.id, c.email, c.full_name, c.phone, c.address, c.created_at, c.updated_at⟩

def getProj (c : Customer) : RowGet :=
  ⟨c.id, c.email, c.full_name, c.phone, c.address, c.loyalty_points,
    c.created_at, c.updated_at⟩

def createProj (c : Customer) : RowCreate :=
  ⟨c.id, c.email, c.full_name, c.phone, c.address, c.created_at⟩

def updateProj (c : Customer) : RowUpdate :=
  ⟨c.id, c.email, c.full_name, c.phone, c.address, c.loyalty_points, c.updated_at⟩

/-- The aggregate row of the stats SELECT (index.js lines 272-276).
`SUM`/`AVG` over an empty set are SQL `NULL`, hence `Option`. -/
structure StatsRow where
  total_customers : Nat
  total_loyalty_points : Option Int
  avg_loyalty_points : Option Rat
deriving DecidableEq

/-- The list endpoint's JSON body (index.js lines 115-120).  `limit` and
`offset` echo `parseInt` of the raw parameters, `none` standing for NaN. -/
structure ListResponse where
  customers : List RowList
  total : Nat
  limit : Option Int
  offset : Option Int
deriving DecidableEq

/-- A parsed value held in the cache: a list page, a single customer row, or
a stats row (the three `JSON.stringify` call sites). -/
inductive CachedVal where
  | page (p : ListResponse)
  | single (r : RowGet)
  | stats (s : StatsRow)
deriving DecidableEq

/-- HTTP-level outcome of a handler, framing stripped. -/
inductive HRes where
  | ok (v : CachedVal)
  | created (r : RowCreate)
  | updated (r : RowUpdate)
  | badRequest
  | notFound
  | conflict
  | serverError
deriving DecidableEq

/-- Service state: the durable store, the cache contents (key, ttl, value),
the id sequence of the store, and cache availability. -/
structure SvcState where
  nextId : Nat
  store : List Customer
  cache : List (String × Nat × CachedVal)
  redisUp : Bool
deriving DecidableEq

/-! ## JS / SQL primitives -/

/-- JS truthiness for required string inputs: `undefined` and `""` are falsy. -/
def truthy : Option String → Option String
  | some s => if s = "" then none else some s
  | none => none

/-- Decimal digits of `n`, least significant first; fuel-driven so that it is
structurally recursive (fuel `n + 1` always suffices since `n` shrinks
ten-fold each step). -/
def natDigitsRevGo : Nat → Nat → List Char
  | 0, _ => []
  | f + 1, n =>
    if n < 10 then [Char.ofNat (48 + n)]
    else Char.ofNat (48 + n % 10) :: natDigitsRevGo f (n / 10)

/-- Modelled from the spec: the store-generated `id` ("opaque unique
identifier", spec §3) for the `n`-th created customer, rendered in decimal.
The schema creating this column is not part of `src/`. -/
def idStr (n : Nat) : String := ⟨(natDigitsRevGo (n + 1) n).reverse⟩

/-- `bcrypt.hash` modelled as an opaque injection (its output is never
compared nor returned by any operation in scope). -/
def bcryptHash (pw : String) : String := "bcrypt$" ++ pw

/-- JS `parseInt` on a request parameter (index.js line 106): skip spaces,
optional sign, then a maximal run of decimal digits; `none` is NaN.
(The radix-16 `0x` corner of `parseInt` is not exercised by any claim.) -/
def parseIntJS (s : String) : Option Int :=
  let l := s.data.dropWhile (fun c => c = ' ')
  let core : List Char → Option Nat := fun cs =>
    let d := cs.takeWhile (fun c => c.isDigit)
    if d.isEmpty then none
    else some (d.foldl (fun a c => a * 10 + (c.toNat - 48)) 0)
  match l with
  | '-' :: rest => (core rest).map (fun n => -(n : Int))
  | '+' :: rest => (core rest).map (fun n => (n : Int))
  | _ => (core l).map (fun n => (n : Int))

/-- Case-insensitive substring test: the SQL `ILIKE '%needle%'` predicate
(LIKE metacharacters inside the needle are not exercised by any claim). -/
def isSubList : List Char → List Char → Bool
  | needle, [] => needle.isEmpty
  | needle, h :: t => needle.isPrefixOf (h :: t) || isSubList needle t

def ilikeStr (needle hay : String) : Bool :=
  isSubList (needle.data.map Char.toLower) (hay.data.map Char.toLower)

/-- `column ILIKE pattern` where the column is nullable: NULL yields SQL
NULL, which is falsy inside the OR. -/
def ilikeOpt (needle : String) (hay : Option String) : Bool :=
  match hay with
  | none => false
  | some h => ilikeStr needle h

/-! ## Query builder (index.js lines 97-113, 209-244) -/

/-- WHERE clause of the list query (lines 97-103): tenant scope plus the
optional case-insensitive search over `email` or `full_name`. -/
def listRowFilter (t : String) (s : Option String) (c : Customer) : Bool :=
  c.tenant_id == t &&
    match s with
    | none => true
    | some pat => ilikeStr pat c.email || ilikeOpt pat c.full_name

/-- WHERE clause of the count query, transcribed separately from its own
source lines (110-112) so that lockstep with the list predicate is a
theorem, not a definition. -/
def countRowFilter (t : String) (s : Option String) (c : Customer) : Bool :=
  c.tenant_id == t &&
    match s with
    | none => true
    | some pat => ilikeStr pat c.email || ilikeOpt pat c.full_name

/-- Insertion step of `ORDER BY created_at DESC` (ties keep arrival order,
which Postgres leaves unspecified). -/
def insertDesc (c : Customer) : List Customer → List Customer
  | [] => [c]
  | x :: xs => if x.created_at ≤ c.created_at then c :: x :: xs else x :: insertDesc c xs

def sortDesc : List Customer → List Customer
  | [] => []
  | x :: xs => insertDesc x (sortDesc xs)

/-- Raw string interpolated for `limit` in the cache key and fed to
`parseInt`: the destructuring default `50` when the parameter is absent
(index.js line 84), else the raw parameter. -/
def limRaw : Option String → String
  | none => "50"
  | some v => v

def offRaw : Option String → String
  | none => "0"
  | some v => v

/-- `parseInt(limit)`: the value pushed as the `LIMIT` parameter (line 106). -/
def effLimit (lim : Option String) : Option Int := parseIntJS (limRaw lim)

/-- `parseInt(offset)`: the value pushed as the `OFFSET` parameter. -/
def effOffset (off : Option String) : Option Int := parseIntJS (offRaw off)

/-- `${search || 'all'}` component of the list cache key (line 91). -/
def searchRep : Option String → String
  | none => "all"
  | some s => s

/-- Execution of the list SELECT by the store: filter, order, offset, limit,
project.  Postgres raises on a NaN or negative `LIMIT`/`OFFSET` parameter. -/
def dbListQuery (store : List Customer) (t : String) (s : Option String)
    (lim off : Option Int) : Except Unit (List RowList) :=
  match lim, off with
  | some l, some o =>
    if l < 0 || o < 0 then .error ()
    else .ok ((((sortDesc (store.filter (listRowFilter t s))).drop o.toNat).take
      l.toNat).map listProj)
  | _, _ => .error ()

/-- Execution of the count SELECT (lines 110-113). -/
def dbCountQuery (store : List Customer) (t : String) (s : Option String) : Nat :=
  (store.filter (countRowFilter t s)).length

/-! ## Cache layer (ioredis adapter) -/

def listCacheKey (t srep l o : String) : String :=
  "customers:" ++ t ++ ":" ++ srep ++ ":" ++ l ++ ":" ++ o

def oneCacheKey (i t : String) : String :=
  "customer:" ++ i ++ ":" ++ t

def statsCacheKey (t : String) : String :=
  "customers:stats:" ++ t

/-- The literal argument of the wildcard `redis.del` calls
(index.js lines 191 and 252). -/
def listWildcardKey (t : String) : String :=
  "customers:" ++ t ++ ":*"

/-- `redis.get`: raises when the cache is down, else the newest entry. -/
def redisGet (st : SvcState) (k : String) : Except Unit (Option CachedVal) :=
  match st.redisUp with
  | true => .ok ((st.cache.find? (fun e => e.1 == k)).map (fun e => e.2.2))
  | false => .error ()

/-- `redis.setex`: raises when the cache is down, else overwrites. -/
def redisSetex (st : SvcState) (k : String) (ttl : Nat) (v : CachedVal) :
    Except Unit SvcState :=
  match st.redisUp with
  | true => .ok { st with cache := (k, ttl, v) :: st.cache }
  | false => .error ()

/-- `redis.del k`: raises when the cache is down, else removes the entries
whose key is literally `k` (DEL does no pattern matching). -/
def redisDel (st : SvcState) (k : String) : Except Unit SvcState :=
  match st.redisUp with
  | true => .ok { st with cache := st.cache.filter (fun e => !(e.1 == k)) }
  | false => .error ()

/-! ## Handlers -/

/-- GET /api/customers (index.js lines 82-128). -/
def listCustomers (st : SvcState) (tenant search lim off : Option String) :
    HRes × SvcState :=
  match truthy tenant with
  | none => (.badRequest, st)
  | some t =>
    let s := truthy search
    let key := listCacheKey t (searchRep s) (limRaw lim) (offRaw off)
    match redisGet st key with
    | .error _ => (.serverError, st)
    | .ok (some v) => (.ok v, st)
    | .ok none =>
      match dbListQuery st.store t s (effLimit lim) (effOffset off) with
      | .error _ => (.serverError, st)
      | .ok rows =>
        let resp : ListResponse :=
          ⟨rows, dbCountQuery st.store t s, effLimit lim, effOffset off⟩
        match redisSetex st key 60 (.page resp) with
        | .error _ => (.serverError, st)
        | .ok st' => (.ok (.page resp), st')

/-- GET /api/customers/:id (index.js lines 131-161). -/
def getCustomer (st : SvcState) (id : String) (tenant : Option String) :
    HRes × SvcState :=
  match truthy tenant with
  | none => (.badRequest, st)
  | some t =>
    let key := oneCacheKey id t
    match redisGet st key with
    | .error _ => (.serverError, st)
    | .ok (some v) => (.ok v, st)
    | .ok none =>
      match (st.store.filter (fun c => c.id == id && c.tenant_id == t)).map getProj with
      | [] => (.notFound, st)
      | r :: _ =>
        match redisSetex st key 300 (.single r) with
        | .error _ => (.serverError, st)
        | .ok st' => (.ok (.single r), st')

/-- POST /api/customers (index.js lines 164-197). -/
def createCustomer (st : SvcState)
    (tenant email password full_name phone address : Option String) (now : Nat) :
    HRes × SvcState :=
  match truthy tenant, truthy email, truthy password with
  | some t, some e, some pw =>
    match st.store.filter (fun c => c.tenant_id == t && c.email == e) with
    | _ :: _ => (.conflict, st)
    | [] =>
      let c : Customer :=
        { id := idStr st.nextId, tenant_id := t, email := e
          password_hash := bcryptHash pw, full_name := full_name
          phone := phone, address := address, loyalty_points := 0
          created_at := now, updated_at := now }
      let st1 : SvcState :=
        { st with store := st.store ++ [c], nextId := st.nextId + 1 }
      match redisDel st1 (listWildcardKey t) with
      | .error _ => (.serverError, st1)
      | .ok st2 => (.created (createProj c), st2)
  | _, _, _ => (.badRequest, st)

/-- The per-row effect of the dynamic UPDATE (index.js lines 209-244):
supplied whitelisted fields overwrite, `updated_at` always refreshes. -/
def applyUpdate (full_name phone address : Option String)
    (loyalty_points : Option Int) (now : Nat) (c : Customer) : Customer :=
  { c with
    full_name := match full_name with | some v => some v | none => c.full_name
    phone := match phone with | some v => some v | none => c.phone
    address := match address with | some v => some v | none => c.address
    loyalty_points := match loyalty_points with | some v => v | none => c.loyalty_points
    updated_at := now }

/-- PUT /api/customers/:id (index.js lines 200-258). -/
def updateCustomer (st : SvcState) (id : String) (tenant : Option String)
    (full_name phone address : Option String) (loyalty_points : Option Int)
    (now : Nat) : HRes × SvcState :=
  match truthy tenant with
  | none => (.badRequest, st)
  | some t =>
    if full_name.isNone && phone.isNone && address.isNone && loyalty_points.isNone
    then (.badRequest, st)
    else
      match st.store.filter (fun c => c.id == id && c.tenant_id == t) with
      | [] => (.notFound, st)
      | c :: _ =>
        let st1 : SvcState :=
          { st with store := st.store.map (fun d =>
              if d.id == id && d.tenant_id == t
              then applyUpdate full_name phone address loyalty_points now d
              else d) }
        match redisDel st1 (oneCacheKey id t) with
        | .error _ => (.serverError, st1)
        | .ok st2 =>
          match redisDel st2 (listWildcardKey t) with
          | .error _ => (.serverError, st2)
          | .ok st3 =>
            (.updated (updateProj
              (applyUpdate full_name phone address loyalty_points now c)), st3)

/-- `SUM(loyalty_points)`: SQL NULL over the empty set. -/
def statsSum (l : List Customer) : Option Int :=
  match l with
  | [] => none
  | _ => some (l.foldl (fun a c => a + c.loyalty_points) 0)

/-- `AVG(loyalty_points)`: SQL NULL over the empty set, exact rational else. -/
def statsAvg (l : List Customer) : Option Rat :=
  match l with
  | [] => none
  | _ => some ((l.foldl (fun a c => a + c.loyalty_points) 0 : Int) / (l.length : Rat))

/-- GET /api/customers/stats/:tenant_id (index.js lines 261-286).  Note: the
path parameter undergoes no truthiness check in the source. -/
def statsTenant (st : SvcState) (t : String) : HRes × SvcState :=
  let key := statsCacheKey t
  match redisGet st key with
  | .error _ => (.serverError, st)
  | .ok (some v) => (.ok v, st)
  | .ok none =>
    let rows := st.store.filter (fun c => c.tenant_id == t)
    let sr : StatsRow := ⟨rows.length, statsSum rows, statsAvg rows⟩
    match redisSetex st key 120 (.stats sr) with
    | .error _ => (.serverError, st)
    | .ok st' => (.ok (.stats sr), st')

/-! ## Operations and traces -/

inductive Op where
  | list (tenant search lim off : Option String)
  | getOne (id : String) (tenant : Option String)
  | create (tenant email password full_name phone address : Option String) (now : Nat)
  | update (id : String) (tenant full_name phone address : Option String)
      (loyalty_points : Option Int) (now : Nat)
  | stats (tenant : String)
deriving DecidableEq

def step (st : SvcState) : Op → HRes × SvcState
  | .list tenant search lim off => listCustomers st tenant search lim off
  | .getOne id tenant => getCustomer st id tenant
  | .create tenant email password full_name phone address now =>
      createCustomer st tenant email password full_name phone address now
  | .update id tenant full_name phone address loyalty_points now =>
      updateCustomer st id tenant full_name phone address loyalty_points now
  | .stats tenant => statsTenant st tenant

def runOps (st : SvcState) : List Op → SvcState
  | [] => st
  | op :: ops => runOps (step st op).2 ops

/-- Fresh deployment: empty store and cache, id sequence at 1, cache up. -/
def initState : SvcState := ⟨1, [], [], true⟩

/-! ## C1 — write invalidation of cached list pages -/

/-- C1: the claim says every cached list page of tenant T is invalidated by a
successful create, so an immediately following list reflects the new row.  The
code instead passes the literal key `customers:T:*` to single-key DEL, which
never matches a real list key: after caching tenant `t`'s only page and then
creating a second customer (`b@x`), the next identical list request is served
the stale cached page, which still shows one customer and misses `b@x`
although the store now holds it. -/
theorem create_then_list_returns_stale_page :
    (step (runOps initState
        [.create (some "t") (some "a@x") (some "pw") none none none 1,
         .list (some "t") none none none,
         .create (some "t") (some "b@x") (some "pw") none none none 2])
        (.list (some "t") none none none)).1 =
      .ok (.page ⟨[⟨"1", "a@x", none, none, none, 1, 1⟩], 1, some 50, some 0⟩) ∧
    (runOps initState
        [.create (some "t") (some "a@x") (some "pw") none none none 1,
         .list (some "t") none none none,
         .create (some "t") (some "b@x") (some "pw") none none none 2]).store.any
      (fun c => c.tenant_id == "t" && c.email == "b@x") = true ∧
    ([(⟨"1", "a@x", none, none, none, 1, 1⟩ : RowList)].all
      (fun r => !(r.email == "b@x"))) = true := by
  decide

/-! ## C2 — cache unavailability on reads -/

/-- C2 counterexample: with the cache down and a matching row in the store,
the list operation does not fall through to the store — the thrown cache
error reaches the handler's catch block and the request fails with a
generic server error, refuting the claim that a cache failure is never
reported to the caller as a request error. -/
theorem cache_down_list_fails_counterexample :
    listCustomers ⟨2, [⟨"1", "t", "a@x", "h", none, none, none, 0, 1, 1⟩], [], false⟩
        (some "t") none none none =
      (.serverError,
        ⟨2, [⟨"1", "t", "a@x", "h", none, none, none, 0, 1, 1⟩], [], false⟩) ∧
    listRowFilter "t" none ⟨"1", "t", "a@x", "h", none, none, none, 0, 1, 1⟩ = true := by
  decide

/-- C2 amended: when the cache layer is unavailable, every read operation
(list, get one, stats) fails with the generic server error of its catch
block — the store is never consulted and the cache failure is reported to
the caller as a request error (state unchanged). -/
theorem cache_down_reads_yield_server_error (st : SvcState) (t id tt : String)
    (search lim off : Option String)
    (hdown : st.redisUp = false) (ht : t ≠ "") :
    listCustomers st (some t) search lim off = (.serverError, st) ∧
    getCustomer st id (some t) = (.serverError, st) ∧
    statsTenant st tt = (.serverError, st) := by
  have htr : truthy (some t) = some t := by simp [truthy, ht]
  refine ⟨?_, ?_, ?_⟩ <;>
    simp [listCustomers, getCustomer, statsTenant, htr, redisGet, hdown]

/-- C2 witness: the amended theorem applied to a concrete down-cache state. -/
theorem cache_down_reads_yield_server_error_witness :
    listCustomers ⟨1, [], [], false⟩ (some "t") none none none =
      (.serverError, ⟨1, [], [], false⟩) ∧
    getCustomer ⟨1, [], [], false⟩ "1" (some "t") =
      (.serverError, ⟨1, [], [], false⟩) ∧
    statsTenant ⟨1, [], [], false⟩ "t" = (.serverError, ⟨1, [], [], false⟩) :=
  cache_down_reads_yield_server_error ⟨1, [], [], false⟩ "t" "1" "t"
    none none none rfl (by decide)

/-! ## C3 — pagination defaults and (absent) clamping -/

/-- C3 counterexample: a caller-supplied negative limit or offset is not
clamped: `parseInt` passes it through as a negative `LIMIT`/`OFFSET`
parameter, and the request consequently fails at the store rather than
running with a clamped non-negative value. -/
theorem negative_limit_not_clamped_counterexample :
    effLimit (some "-5") = some (-5) ∧ effOffset (some "-3") = some (-3) ∧
    ((-5 : Int) < 0 ∧ (-3 : Int) < 0) ∧
    (listCustomers ⟨1, [], [], true⟩ (some "t") none (some "-5") none).1 =
      .serverError := by
  decide

/-- C3 amended: omitted pagination parameters default to `limit = 50` and
`offset = 0`; supplied values are parsed with `parseInt` and applied without
any clamping, so whatever `parseInt` yields (negative values included) is
passed verbatim as the `LIMIT`/`OFFSET` parameter. -/
theorem pagination_defaults_and_passthrough :
    effLimit none = some 50 ∧ effOffset none = some 0 ∧
    ∀ s : String, effLimit (some s) = parseIntJS s ∧ effOffset (some s) = parseIntJS s :=
  ⟨rfl, rfl, fun _ => ⟨rfl, rfl⟩⟩

/-! ## C4 — the loyalty_points non-negativity invariant -/

/-- C4: the spec's invariant says `loyalty_points` is never negative, but the
update handler whitelists the field without any bound check: updating a
customer holding 10 points with `loyalty_points = -5` stores and returns
`-5`. -/
theorem update_stores_negative_loyalty :
    updateCustomer ⟨2, [⟨"1", "t", "a@x", "h", none, none, none, 10, 1, 1⟩], [], true⟩
        "1" (some "t") none none none (some (-5)) 7 =
      (.updated ⟨"1", "a@x", none, none, none, -5, 7⟩,
        ⟨2, [⟨"1", "t", "a@x", "h", none, none, none, -5, 1, 7⟩], [], true⟩) ∧
    (-5 : Int) < 0 := by
  decide

/-! ## C5 — count query in lockstep with the list query -/

theorem length_insertDesc (c : Customer) (l : List Customer) :
    (insertDesc c l).length = l.length + 1 := by
  induction l with
  | nil => rfl
  | cons x xs ih =>
    by_cases h : x.created_at ≤ c.created_at <;> simp [insertDesc, h, ih]

theorem length_sortDesc (l : List Customer) : (sortDesc l).length = l.length := by
  induction l with
  | nil => rfl
  | cons x xs ih => simp [sortDesc, length_insertDesc, ih]

/-- C5: the count query's WHERE clause coincides with the list query's, so
the returned `total` is the number of all rows matching the list filter,
whatever `limit` and `offset` are; and when the offset reaches that total
the page of customers is empty while `total` still reports the full count. -/
theorem list_count_lockstep_and_boundary (st : SvcState) (t : String)
    (search lim off : Option String) (l o : Int)
    (hup : st.redisUp = true)
    (hmiss : st.cache.find? (fun e =>
      e.1 == listCacheKey t (searchRep (truthy search)) (limRaw lim) (offRaw off)) = none)
    (ht : t ≠ "")
    (hl : effLimit lim = some l) (hl0 : 0 ≤ l)
    (ho : effOffset off = some o) (ho0 : 0 ≤ o) :
    (∀ c : Customer, countRowFilter t (truthy search) c = listRowFilter t (truthy search) c) ∧
    (listCustomers st (some t) search lim off).1 =
      .ok (.page
        ⟨(((sortDesc (st.store.filter (listRowFilter t (truthy search)))).drop o.toNat).take
            l.toNat).map listProj,
         (st.store.filter (listRowFilter t (truthy search))).length, some l, some o⟩) ∧
    ((st.store.filter (listRowFilter t (truthy search))).length ≤ o.toNat →
      (((sortDesc (st.store.filter (listRowFilter t (truthy search)))).drop o.toNat).take
          l.toNat).map listProj = []) := by
  have hneg : (decide (l < 0) || decide (o < 0)) = false := by
    simp [not_lt.2 hl0, not_lt.2 ho0]
  have htr : truthy (some t) = some t := by simp [truthy, ht]
  have hcf : countRowFilter t (truthy search) = listRowFilter t (truthy search) := rfl
  refine ⟨fun c => rfl, ?_, ?_⟩
  · simp [listCustomers, htr, redisGet, hup, hmiss, dbListQuery, hl, ho, hneg,
      redisSetex, dbCountQuery, hcf]
  · intro hlen
    have hdrop : (sortDesc (st.store.filter (listRowFilter t (truthy search)))).drop
        o.toNat = [] :=
      List.drop_eq_nil_of_le (by rw [length_sortDesc]; exact hlen)
    simp [hdrop]

/-- C5 witness: two stored customers, `limit = 10`, `offset = 2` give an
empty page with `total = 2`. -/
theorem list_count_lockstep_and_boundary_witness :
    (∀ c : Customer, countRowFilter "t" none c = listRowFilter "t" none c) ∧
    (listCustomers
        ⟨3, [⟨"1", "t", "a@x", "h", none, none, none, 0, 1, 1⟩,
             ⟨"2", "t", "b@x", "h", none, none, none, 0, 2, 2⟩], [], true⟩
        (some "t") none (some "10") (some "2")).1 =
      .ok (.page ⟨[], 2, some 10, some 2⟩) ∧
    (2 ≤ 2 →
      ([] : List RowList) = []) :=
  list_count_lockstep_and_boundary
    ⟨3, [⟨"1", "t", "a@x", "h", none, none, none, 0, 1, 1⟩,
         ⟨"2", "t", "b@x", "h", none, none, none, 0, 2, 2⟩], [], true⟩
    "t" none (some "10") (some "2") 10 2 rfl rfl (by decide) rfl (by decide) rfl (by decide)

/-! ## C7 — duplicate create is a conflict and leaves the state intact -/

/-- C7: when a customer with the same `(tenant_id, email)` already exists,
the create pre-check reports a conflict before any insert or cache call, and
the whole service state (the existing record included) is unchanged. -/
theorem duplicate_create_conflict_preserves_state (st : SvcState)
    (t e pw : String) (full_name phone address : Option String) (now : Nat)
    (c : Customer) (hc : c ∈ st.store) (hct : c.tenant_id = t) (hce : c.email = e)
    (ht : t ≠ "") (he : e ≠ "") (hpw : pw ≠ "") :
    createCustomer st (some t) (some e) (some pw) full_name phone address now =
      (.conflict, st) := by
  have hmem : c ∈ st.store.filter (fun d => d.tenant_id == t && d.email == e) :=
    List.mem_filter.2 ⟨hc, by simp [hct, hce]⟩
  cases hfe : st.store.filter (fun d => d.tenant_id == t && d.email == e) with
  | nil => rw [hfe] at hmem; cases hmem
  | cons hd tl => simp [createCustomer, truthy, ht, he, hpw, hfe]

/-- C7 witness: conflicting create against a concrete one-customer store. -/
theorem duplicate_create_conflict_preserves_state_witness :
    createCustomer ⟨2, [⟨"1", "t", "a@x", "h", none, none, none, 0, 1, 1⟩], [], true⟩
        (some "t") (some "a@x") (some "pw2") (some "Mallory") none none 9 =
      (.conflict, ⟨2, [⟨"1", "t", "a@x", "h", none, none, none, 0, 1, 1⟩], [], true⟩) :=
  duplicate_create_conflict_preserves_state
    ⟨2, [⟨"1", "t", "a@x", "h", none, none, none, 0, 1, 1⟩], [], true⟩
    "t" "a@x" "pw2" (some "Mallory") none none 9
    ⟨"1", "t", "a@x", "h", none, none, none, 0, 1, 1⟩
    (by decide) rfl rfl (by decide) (by decide) (by decide)

/-! ## C8 — partial update frames the unsupplied fields -/

/-- C8: for every update request supplying any subset of the whitelisted
fields (`full_name`, `phone`, `address`, `loyalty_points`) with at least one
field present, the update succeeds, rewrites exactly the matching rows, and
on each rewritten row every field NOT supplied keeps its previous value,
every supplied field takes the supplied value, `email`/`created_at` are
untouched, and `updated_at` is refreshed to the current time; every other
row is untouched. -/
theorem partial_update_frame (st : SvcState) (i t : String)
    (full_name phone address : Option String) (loyalty_points : Option Int)
    (now : Nat) (c : Customer)
    (hup : st.redisUp = true) (ht : t ≠ "")
    (hsome : full_name.isSome = true ∨ phone.isSome = true ∨
      address.isSome = true ∨ loyalty_points.isSome = true)
    (hc : c ∈ st.store) (hci : c.id = i) (hct : c.tenant_id = t) :
    (updateCustomer st i (some t) full_name phone address loyalty_points now).2.store =
      st.store.map (fun d =>
        if d.id == i && d.tenant_id == t
        then applyUpdate full_name phone address loyalty_points now d else d) ∧
    (∃ r, (updateCustomer st i (some t) full_name phone address loyalty_points now).1 =
      .updated r) ∧
    ∀ d ∈ st.store, d.id = i → d.tenant_id = t →
      applyUpdate full_name phone address loyalty_points now d ∈
        (updateCustomer st i (some t) full_name phone address loyalty_points now).2.store ∧
      (full_name = none →
        (applyUpdate full_name phone address loyalty_points now d).full_name =
          d.full_name) ∧
      (phone = none →
        (applyUpdate full_name phone address loyalty_points now d).phone = d.phone) ∧
      (address = none →
        (applyUpdate full_name phone address loyalty_points now d).address = d.address) ∧
      (loyalty_points = none →
        (applyUpdate full_name phone address loyalty_points now d).loyalty_points =
          d.loyalty_points) ∧
      (∀ v, full_name = some v →
        (applyUpdate full_name phone address loyalty_points now d).full_name = some v) ∧
      (∀ v, phone = some v →
        (applyUpdate full_name phone address loyalty_points now d).phone = some v) ∧
      (∀ v, address = some v →
        (applyUpdate full_name phone address loyalty_points now d).address = some v) ∧
      (∀ v, loyalty_points = some v →
        (applyUpdate full_name phone address loyalty_points now d).loyalty_points = v) ∧
      (applyUpdate full_name phone address loyalty_points now d).email = d.email ∧
      (applyUpdate full_name phone address loyalty_points now d).created_at =
        d.created_at ∧
      (applyUpdate full_name phone address loyalty_points now d).updated_at = now := by
  have htr : truthy (some t) = some t := by simp [truthy, ht]
  have hempty : ¬(full_name.isNone && phone.isNone && address.isNone &&
      loyalty_points.isNone) = true := by
    cases full_name <;> cases phone <;> cases address <;> cases loyalty_points <;>
      simp_all
  have hmem : c ∈ st.store.filter (fun d => d.id == i && d.tenant_id == t) :=
    List.mem_filter.2 ⟨hc, by simp [hci, hct]⟩
  cases hfe : st.store.filter (fun d => d.id == i && d.tenant_id == t) with
  | nil => rw [hfe] at hmem; cases hmem
  | cons hd tl =>
    have hstore : (updateCustomer st i (some t) full_name phone address
        loyalty_points now).2.store =
        st.store.map (fun d =>
          if d.id == i && d.tenant_id == t
          then applyUpdate full_name phone address loyalty_points now d else d) := by
      simp [updateCustomer, htr, hempty, hfe, redisDel, hup]
    refine ⟨hstore, ?_, ?_⟩
    · exact ⟨updateProj (applyUpdate full_name phone address loyalty_points now hd),
        by simp [updateCustomer, htr, hempty, hfe, redisDel, hup]⟩
    · intro d hdm hdi hdt
      refine ⟨?_, ?_, ?_, ?_, ?_, ?_, ?_, ?_, ?_, rfl, rfl, rfl⟩
      · rw [hstore]
        exact List.mem_map.2 ⟨d, hdm, by simp [hdi, hdt]⟩
      · intro h; subst h; rfl
      · intro h; subst h; rfl
      · intro h; subst h; rfl
      · intro h; subst h; rfl
      · intro v h; subst h; rfl
      · intro v h; subst h; rfl
      · intro v h; subst h; rfl
      · intro v h; subst h; rfl

/-- C8 witness: updating only the phone of a concrete customer (the spec's
own example of a proper subset: `full_name`, `address`, `loyalty_points`
absent). -/
theorem partial_update_frame_witness :
    (updateCustomer
        ⟨2, [⟨"1", "t", "a@x", "h", some "Al", some "111", some "addr", 3, 1, 1⟩], [], true⟩
        "1" (some "t") none (some "555") none none 9).2.store =
      [(⟨"1", "t", "a@x", "h", some "Al", some "111", some "addr", 3, 1, 1⟩ : Customer)].map
        (fun d =>
          if d.id == "1" && d.tenant_id == "t"
          then applyUpdate none (some "555") none none 9 d else d) ∧
    (∃ r, (updateCustomer
        ⟨2, [⟨"1", "t", "a@x", "h", some "Al", some "111", some "addr", 3, 1, 1⟩], [], true⟩
        "1" (some "t") none (some "555") none none 9).1 = .updated r) ∧
    ∀ d ∈ [(⟨"1", "t", "a@x", "h", some "Al", some "111", some "addr", 3, 1, 1⟩ : Customer)],
      d.id = "1" → d.tenant_id = "t" →
      applyUpdate none (some "555") none none 9 d ∈
        (updateCustomer
          ⟨2, [⟨"1", "t", "a@x", "h", some "Al", some "111", some "addr", 3, 1, 1⟩], [], true⟩
          "1" (some "t") none (some "555") none none 9).2.store ∧
      ((none : Option String) = none →
        (applyUpdate none (some "555") none none 9 d).full_name = d.full_name) ∧
      ((some "555" : Option String) = none →
        (applyUpdate none (some "555") none none 9 d).phone = d.phone) ∧
      ((none : Option String) = none →
        (applyUpdate none (some "555") none none 9 d).address = d.address) ∧
      ((none : Option Int) = none →
        (applyUpdate none (some "555") none none 9 d).loyalty_points =
          d.loyalty_points) ∧
      (∀ v, (none : Option String) = some v →
        (applyUpdate none (some "555") none none 9 d).full_name = some v) ∧
      (∀ v, (some "555" : Option String) = some v →
        (applyUpdate none (some "555") none none 9 d).phone = some v) ∧
      (∀ v, (none : Option String) = some v →
        (applyUpdate none (some "555") none none 9 d).address = some v) ∧
      (∀ v, (none : Option Int) = some v →
        (applyUpdate none (some "555") none none 9 d).loyalty_points = v) ∧
      (applyUpdate none (some "555") none none 9 d).email = d.email ∧
      (applyUpdate none (some "555") none none 9 d).created_at = d.created_at ∧
      (applyUpdate none (some "555") none none 9 d).updated_at = 9 :=
  partial_update_frame
    ⟨2, [⟨"1", "t", "a@x", "h", some "Al", some "111", some "addr", 3, 1, 1⟩], [], true⟩
    "1" "t" none (some "555") none none 9
    ⟨"1", "t", "a@x", "h", some "Al", some "111", some "addr", 3, 1, 1⟩
    rfl (by decide) (by decide) (by decide) rfl rfl

/-! ## C9 — empty update is rejected without touching the store -/

/-- C9: an update supplying none of the whitelisted fields is answered with a
validation error before any statement is built or executed; the state —
records and their `updated_at` included — is untouched. -/
theorem empty_update_rejected_no_write (st : SvcState) (id t : String) (now : Nat)
    (ht : t ≠ "") :
    updateCustomer st id (some t) none none none none now = (.badRequest, st) := by
  simp [updateCustomer, truthy, ht]

/-- C9 witness: empty update against a concrete store. -/
theorem empty_update_rejected_no_write_witness :
    updateCustomer ⟨2, [⟨"1", "t", "a@x", "h", none, none, none, 0, 1, 1⟩], [], true⟩
        "1" (some "t") none none none none 9 =
      (.badRequest, ⟨2, [⟨"1", "t", "a@x", "h", none, none, none, 0, 1, 1⟩], [], true⟩) :=
  empty_update_rejected_no_write
    ⟨2, [⟨"1", "t", "a@x", "h", none, none, none, 0, 1, 1⟩], [], true⟩
    "1" "t" 9 (by decide)

/-! ## C6 infrastructure — cache-key disambiguation

The cache keys are colon-joined strings; when every interpolated component is
colon-free the three key families are mutually disjoint and injective in
their components, which is what tenant isolation of cache-served responses
rests on (and what fails when a tenant id itself contains a colon). -/

def noColon (s : String) : Bool := s.data.all (fun c => !(c == ':'))

def noColonO : Option String → Bool
  | none => true
  | some s => noColon s

theorem noColon_spec {s : String} (h : noColon s = true) : ':' ∉ s.data := by
  intro hm
  have := List.all_eq_true.1 h _ hm
  simp at this

theorem sdata_append (a b : String) : (a ++ b).data = a.data ++ b.data := by
  cases a; cases b; rfl

theorem sext {a b : String} (h : a.data = b.data) : a = b := by
  cases a; cases b; exact congrArg String.mk h

/-- Splitting at the first colon is unambiguous when both left parts are
colon-free. -/
theorem colonSplit : ∀ (xs xs' ys ys' : List Char), ':' ∉ xs → ':' ∉ xs' →
    xs ++ ':' :: ys = xs' ++ ':' :: ys' → xs = xs' ∧ ys = ys' := by
  intro xs
  induction xs with
  | nil =>
    intro xs' ys ys' _ hx' heq
    cases xs' with
    | nil => simpa using heq
    | cons a as =>
      simp only [List.nil_append, List.cons_append, List.cons.injEq] at heq
      exact absurd (heq.1 ▸ List.mem_cons_self a as) hx'
  | cons a as ih =>
    intro xs' ys ys' hx hx' heq
    cases xs' with
    | nil =>
      simp only [List.nil_append, List.cons_append, List.cons.injEq] at heq
      exact absurd (heq.1 ▸ List.mem_cons_self a as) hx
    | cons b bs =>
      simp only [List.cons_append, List.cons.injEq] at heq
      obtain ⟨hab, htail⟩ := heq
      obtain ⟨h1, h2⟩ := ih bs ys ys'
        (fun hm => hx (List.mem_cons_of_mem _ hm))
        (fun hm => hx' (List.mem_cons_of_mem _ hm)) htail
      exact ⟨by rw [hab, h1], h2⟩

theorem listKey_data (t s l o : String) :
    (listCacheKey t s l o).data =
      'c' :: 'u' :: 's' :: 't' :: 'o' :: 'm' :: 'e' :: 'r' :: 's' :: ':' ::
        (t.data ++ ':' :: (s.data ++ ':' :: (l.data ++ ':' :: o.data))) := by
  have h1 : ("customers:" : String).data =
      'c' :: 'u' :: 's' :: 't' :: 'o' :: 'm' :: 'e' :: 'r' :: 's' :: ':' :: [] := rfl
  have h2 : (":" : String).data = ':' :: [] := rfl
  simp [listCacheKey, sdata_append, h1, h2]

theorem oneKey_data (i t : String) :
    (oneCacheKey i t).data =
      'c' :: 'u' :: 's' :: 't' :: 'o' :: 'm' :: 'e' :: 'r' :: ':' ::
        (i.data ++ ':' :: t.data) := by
  have h1 : ("customer:" : String).data =
      'c' :: 'u' :: 's' :: 't' :: 'o' :: 'm' :: 'e' :: 'r' :: ':' :: [] := rfl
  have h2 : (":" : String).data = ':' :: [] := rfl
  simp [oneCacheKey, sdata_append, h1, h2]

theorem statsKey_data (t : String) :
    (statsCacheKey t).data =
      'c' :: 'u' :: 's' :: 't' :: 'o' :: 'm' :: 'e' :: 'r' :: 's' :: ':' ::
        's' :: 't' :: 'a' :: 't' :: 's' :: ':' :: t.data := by
  have h1 : ("customers:stats:" : String).data =
      'c' :: 'u' :: 's' :: 't' :: 'o' :: 'm' :: 'e' :: 'r' :: 's' :: ':' ::
        's' :: 't' :: 'a' :: 't' :: 's' :: ':' :: [] := rfl
  simp [statsCacheKey, sdata_append, h1]

theorem listKey_inj {t s l o t' s' l' o' : String}
    (ht : ':' ∉ t.data) (hs : ':' ∉ s.data) (hl : ':' ∉ l.data)
    (ht' : ':' ∉ t'.data) (hs' : ':' ∉ s'.data) (hl' : ':' ∉ l'.data)
    (h : listCacheKey t s l o = listCacheKey t' s' l' o') :
    t = t' ∧ s = s' ∧ l = l' ∧ o = o' := by
  have hd := congrArg String.data h
  rw [listKey_data, listKey_data] at hd
  simp only [List.cons.injEq, true_and] at hd
  obtain ⟨h1, hrest⟩ := colonSplit _ _ _ _ ht ht' hd
  obtain ⟨h2, hrest2⟩ := colonSplit _ _ _ _ hs hs' hrest
  obtain ⟨h3, h4⟩ := colonSplit _ _ _ _ hl hl' hrest2
  exact ⟨sext h1, sext h2, sext h3, sext h4⟩

theorem oneKey_inj {i t i' t' : String}
    (hi : ':' ∉ i.data) (hi' : ':' ∉ i'.data)
    (h : oneCacheKey i t = oneCacheKey i' t') : i = i' ∧ t = t' := by
  have hd := congrArg String.data h
  rw [oneKey_data, oneKey_data] at hd
  simp only [List.cons.injEq, true_and] at hd
  obtain ⟨h1, h2⟩ := colonSplit _ _ _ _ hi hi' hd
  exact ⟨sext h1, sext h2⟩

theorem statsKey_inj {t t' : String} (h : statsCacheKey t = statsCacheKey t') :
    t = t' := by
  have hd := congrArg String.data h
  rw [statsKey_data, statsKey_data] at hd
  simp only [List.cons.injEq, true_and] at hd
  exact sext hd

theorem listKey_ne_oneKey (t s l o i t₂ : String) :
    listCacheKey t s l o ≠ oneCacheKey i t₂ := by
  intro h
  have hd := congrArg String.data h
  rw [listKey_data, oneKey_data] at hd
  simp at hd

theorem oneKey_ne_statsKey (i t t₂ : String) :
    oneCacheKey i t ≠ statsCacheKey t₂ := by
  intro h
  have hd := congrArg String.data h
  rw [oneKey_data, statsKey_data] at hd
  simp at hd

theorem listKey_ne_statsKey {t s l o t₂ : String}
    (ht : ':' ∉ t.data) (ht₂ : ':' ∉ t₂.data) :
    listCacheKey t s l o ≠ statsCacheKey t₂ := by
  intro h
  have hd := congrArg String.data h
  rw [listKey_data, statsKey_data] at hd
  simp only [List.cons.injEq, true_and] at hd
  have hstats : ':' ∉ ['s', 't', 'a', 't', 's'] := by decide
  have hd' : t.data ++ ':' :: (s.data ++ ':' :: (l.data ++ ':' :: o.data)) =
      ['s', 't', 'a', 't', 's'] ++ ':' :: t₂.data := hd
  obtain ⟨h1, h2⟩ := colonSplit _ _ _ _ ht hstats hd'
  exact ht₂ (h2 ▸ List.mem_append_right s.data (List.mem_cons_self _ _))

/-! ### id generation: injective and colon-free -/

theorem digit_char_ne_colon : ∀ r : Nat, r < 10 → Char.ofNat (48 + r) ≠ ':' := by
  decide

theorem char_toNat_digit : ∀ r : Nat, r < 10 → (Char.ofNat (48 + r)).toNat = 48 + r := by
  decide

theorem mem_natDigitsRevGo_ne_colon :
    ∀ f n, ∀ c ∈ natDigitsRevGo f n, c ≠ ':' := by
  intro f
  induction f with
  | zero => intro n c hc; cases hc
  | succ f ih =>
    intro n c hc
    by_cases h : n < 10
    · simp [natDigitsRevGo, h] at hc
      exact hc ▸ digit_char_ne_colon n h
    · simp [natDigitsRevGo, h] at hc
      rcases hc with hc | hc
      · exact hc ▸ digit_char_ne_colon (n % 10) (Nat.mod_lt _ (by norm_num))
      · exact ih (n / 10) c hc

theorem noColon_idStr (n : Nat) : noColon (idStr n) = true := by
  refine List.all_eq_true.2 fun c hc => ?_
  have hc' : c ∈ natDigitsRevGo (n + 1) n := List.mem_reverse.1 hc
  simpa using mem_natDigitsRevGo_ne_colon (n + 1) n c hc'

def digitsRevVal : List Char → Nat
  | [] => 0
  | c :: r => (c.toNat - 48) + 10 * digitsRevVal r

theorem digitsRevVal_go : ∀ f n, n < f → digitsRevVal (natDigitsRevGo f n) = n := by
  intro f
  induction f with
  | zero => intro n h; exact absurd h (Nat.not_lt_zero n)
  | succ f ih =>
    intro n h
    by_cases h10 : n < 10
    · simp [natDigitsRevGo, h10, digitsRevVal, char_toNat_digit n h10]
    · have hlt : n / 10 < f := by
        have h1 : n / 10 < n := Nat.div_lt_self (by omega) (by norm_num)
        omega
      simp [natDigitsRevGo, h10, digitsRevVal, ih _ hlt,
        char_toNat_digit (n % 10) (Nat.mod_lt _ (by norm_num))]
      omega

theorem idStr_inj {m n : Nat} (h : idStr m = idStr n) : m = n := by
  have hd : (natDigitsRevGo (m + 1) m).reverse = (natDigitsRevGo (n + 1) n).reverse :=
    congrArg String.data h
  have hgo := List.reverse_injective hd
  have hm := digitsRevVal_go (m + 1) m (Nat.lt_succ_self m)
  have hn := digitsRevVal_go (n + 1) n (Nat.lt_succ_self n)
  rw [← hm, ← hn, hgo]

/-! ## C10 — stats of a tenant with zero rows -/

/-- C10: for a tenant with no customer rows, the stats operation succeeds
with `total_customers = 0` and NULL `SUM`/`AVG`, and writes that aggregate
row to the cache with the usual 120-second TTL — it never reports
not-found. -/
theorem stats_empty_tenant_zero_row (st : SvcState) (t : String)
    (hup : st.redisUp = true)
    (hmiss : st.cache.find? (fun e => e.1 == statsCacheKey t) = none)
    (hempty : st.store.filter (fun c => c.tenant_id == t) = []) :
    statsTenant st t =
      (.ok (.stats ⟨0, none, none⟩),
        { st with cache := (statsCacheKey t, 120, .stats ⟨0, none, none⟩) :: st.cache }) := by
  simp [statsTenant, redisGet, hup, hmiss, hempty, redisSetex, statsSum, statsAvg]

/-- C10 witness: stats of an unknown tenant on the fresh deployment. -/
theorem stats_empty_tenant_zero_row_witness :
    statsTenant ⟨1, [], [], true⟩ "ghost" =
      (.ok (.stats ⟨0, none, none⟩),
        ⟨1, [], [(statsCacheKey "ghost", 120, .stats ⟨0, none, none⟩)], true⟩) :=
  stats_empty_tenant_zero_row ⟨1, [], [], true⟩ "ghost" rfl rfl rfl

/-! ## C6 — tenant isolation

Store-served responses are tenant-scoped by the WHERE clauses; cache-served
responses are tenant-scoped only insofar as the colon-joined cache keys are
unambiguous.  `CFOp` (colon-free operation) captures the side condition the
amendment needs; under it we prove a cache invariant of every reachable
state and derive isolation for all three read operations. -/

/-- Colon-free side condition on an operation's cache-key components. -/
def CFOp : Op → Bool
  | .list tenant search lim off =>
      noColonO tenant && noColonO search && noColonO lim && noColonO off
  | .getOne id tenant => noColon id && noColonO tenant
  | .create _ _ _ _ _ _ _ => true
  | .update _ _ _ _ _ _ _ => true
  | .stats tenant => noColon tenant

/-- Every cache entry is a well-keyed snapshot: a list page whose rows all
belong to the keyed tenant, a single row of the keyed tenant, or a stats row
for the keyed tenant — with all key components colon-free. -/
def EntryOK (store : List Customer) (e : String × Nat × CachedVal) : Prop :=
  (∃ t s l o p, noColon t = true ∧ noColon s = true ∧ noColon l = true ∧
    noColon o = true ∧ e.1 = listCacheKey t s l o ∧ e.2.2 = .page p ∧
    ∀ r ∈ p.customers, ∃ c ∈ store, c.tenant_id = t ∧ c.id = r.id) ∨
  (∃ i t row, noColon i = true ∧ noColon t = true ∧
    e.1 = oneCacheKey i t ∧ e.2.2 = .single row ∧
    ∃ c ∈ store, c.tenant_id = t ∧ c.id = row.id) ∨
  (∃ t sr, noColon t = true ∧ e.1 = statsCacheKey t ∧ e.2.2 = .stats sr)

def IdsOK (st : SvcState) : Prop :=
  (∀ c ∈ st.store, ∃ k, c.id = idStr k ∧ k < st.nextId) ∧
  st.store.Pairwise (fun a b => a.id ≠ b.id)

def Inv (st : SvcState) : Prop :=
  (∀ e ∈ st.cache, EntryOK st.store e) ∧ IdsOK st

theorem EntryOK.mono {store store' : List Customer}
    {e : String × Nat × CachedVal}
    (hmono : ∀ c ∈ store, ∃ c' ∈ store', c'.tenant_id = c.tenant_id ∧ c'.id = c.id)
    (h : EntryOK store e) : EntryOK store' e := by
  rcases h with ⟨t, s, l, o, p, ht, hs, hl, ho, hk, hv, hp⟩ |
    ⟨i, t, row, hi, ht, hk, hv, c, hc, hct, hci⟩ | hstats
  · refine Or.inl ⟨t, s, l, o, p, ht, hs, hl, ho, hk, hv, fun r hr => ?_⟩
    obtain ⟨c, hc, hct, hci⟩ := hp r hr
    obtain ⟨c', hc', hct', hci'⟩ := hmono c hc
    exact ⟨c', hc', by rw [hct', hct], by rw [hci', hci]⟩
  · obtain ⟨c', hc', hct', hci'⟩ := hmono c hc
    exact Or.inr (Or.inl ⟨i, t, row, hi, ht, hk, hv, c', hc',
      by rw [hct', hct], by rw [hci', hci]⟩)
  · exact Or.inr (Or.inr hstats)

theorem truthy_eq_some {x : Option String} {t : String} (h : truthy x = some t) :
    x = some t := by
  cases x with
  | none => simp [truthy] at h
  | some s =>
    by_cases hs : s = ""
    · simp [truthy, hs] at h
    · simp only [truthy, if_neg hs, Option.some.injEq] at h
      rw [h]

theorem noColonO_truthy {x : Option String} {t : String}
    (hx : noColonO x = true) (h : truthy x = some t) : noColon t = true := by
  rw [truthy_eq_some h] at hx
  exact hx

theorem noColon_searchRep {search : Option String} (h : noColonO search = true) :
    noColon (searchRep (truthy search)) = true := by
  cases search with
  | none => decide
  | some s =>
    by_cases hs : s = ""
    · subst hs; decide
    · simpa [truthy, searchRep, hs] using h

theorem noColon_limRaw {lim : Option String} (h : noColonO lim = true) :
    noColon (limRaw lim) = true := by
  cases lim with
  | none => decide
  | some v => exact h

theorem noColon_offRaw {off : Option String} (h : noColonO off = true) :
    noColon (offRaw off) = true := by
  cases off with
  | none => decide
  | some v => exact h

theorem mem_insertDesc {x c : Customer} :
    ∀ {l : List Customer}, x ∈ insertDesc c l ↔ x = c ∨ x ∈ l := by
  intro l
  induction l with
  | nil => simp [insertDesc]
  | cons a as ih =>
    by_cases h : a.created_at ≤ c.created_at
    · simp [insertDesc, h, List.mem_cons]
    · simp only [insertDesc, if_neg h, List.mem_cons, ih]
      tauto

theorem mem_sortDesc {x : Customer} :
    ∀ {l : List Customer}, x ∈ sortDesc l ↔ x ∈ l := by
  intro l
  induction l with
  | nil => simp [sortDesc]
  | cons a as ih => simp [sortDesc, mem_insertDesc, ih, List.mem_cons]

/-- Rows produced by the list SELECT all come from store rows of the scoped
tenant, with the row id equal to the customer id. -/
theorem dbListQuery_provenance {store : List Customer} {t : String}
    {s : Option String} {lim off : Option Int} {rows : List RowList}
    (hq : dbListQuery store t s lim off = .ok rows) :
    ∀ r ∈ rows, ∃ c ∈ store, c.tenant_id = t ∧ c.id = r.id := by
  cases lim with
  | none => simp [dbListQuery] at hq
  | some l =>
    cases off with
    | none => simp [dbListQuery] at hq
    | some o =>
      simp only [dbListQuery] at hq
      split at hq
      · cases hq
      · injection hq with hq
        intro r hr
        rw [← hq] at hr
        obtain ⟨c, hc, hcr⟩ := List.mem_map.1 hr
        have hc1 : c ∈ sortDesc (store.filter (listRowFilter t s)) :=
          List.drop_subset _ _ (List.take_subset _ _ hc)
        obtain ⟨hcs, hcp⟩ := List.mem_filter.1 (mem_sortDesc.1 hc1)
        refine ⟨c, hcs, ?_, ?_⟩
        · simp only [listRowFilter, Bool.and_eq_true, beq_iff_eq] at hcp
          exact hcp.1
        · exact congrArg RowList.id hcr

/-! ### Invariant preservation, operation by operation -/

theorem CacheOK_append_store {store : List Customer}
    {cache : List (String × Nat × CachedVal)}
    (h : ∀ e ∈ cache, EntryOK store e) (cs : List Customer) :
    ∀ e ∈ cache, EntryOK (store ++ cs) e :=
  fun e he =>
    EntryOK.mono (fun c hc => ⟨c, List.mem_append_left _ hc, rfl, rfl⟩) (h e he)

theorem CacheOK_filter_cache {store : List Customer}
    {cache : List (String × Nat × CachedVal)} {p}
    (h : ∀ e ∈ cache, EntryOK store e) :
    ∀ e ∈ cache.filter p, EntryOK store e :=
  fun e he => h e (List.mem_of_mem_filter he)

theorem IdsOK_append_fresh {store : List Customer} {nid : Nat}
    (hA : ∀ c ∈ store, ∃ k, c.id = idStr k ∧ k < nid)
    (hB : store.Pairwise (fun a b => a.id ≠ b.id))
    (c : Customer) (hcid : c.id = idStr nid) :
    (∀ d ∈ store ++ [c], ∃ k, d.id = idStr k ∧ k < nid + 1) ∧
    (store ++ [c]).Pairwise (fun a b => a.id ≠ b.id) := by
  constructor
  · intro d hd
    rcases List.mem_append.1 hd with hd | hd
    · obtain ⟨k, hk, hklt⟩ := hA d hd
      exact ⟨k, hk, by omega⟩
    · rw [List.mem_singleton.1 hd]
      exact ⟨nid, hcid, Nat.lt_succ_self _⟩
  · refine List.pairwise_append.2 ⟨hB, List.pairwise_singleton _ _, ?_⟩
    intro a ha b hb
    rw [List.mem_singleton.1 hb]
    obtain ⟨k, hk, hklt⟩ := hA a ha
    rw [hk, hcid]
    intro hcontra
    exact absurd (idStr_inj hcontra) (by omega)

theorem inv_list (st : SvcState) (tenant search lim off : Option String)
    (hct : noColonO tenant = true) (hcs : noColonO search = true)
    (hcl : noColonO lim = true) (hco : noColonO off = true)
    (h : Inv st) : Inv (listCustomers st tenant search lim off).2 := by
  obtain ⟨hcache, hids⟩ := h
  unfold listCustomers redisGet redisSetex
  dsimp only
  cases htr : truthy tenant with
  | none => exact ⟨hcache, hids⟩
  | some t =>
    have hnt : noColon t = true := noColonO_truthy hct htr
    dsimp only
    cases hru : st.redisUp with
    | false => exact ⟨hcache, hids⟩
    | true =>
      cases hf : st.cache.find? (fun e =>
          e.1 == listCacheKey t (searchRep (truthy search)) (limRaw lim) (offRaw off)) with
      | some w => exact ⟨hcache, hids⟩
      | none =>
        cases hq : dbListQuery st.store t (truthy search) (effLimit lim) (effOffset off) with
        | error err => exact ⟨hcache, hids⟩
        | ok rows =>
          refine ⟨?_, hids⟩
          intro e he
          rcases List.mem_cons.1 he with rfl | he'
          · exact Or.inl ⟨t, searchRep (truthy search), limRaw lim, offRaw off, _,
              hnt, noColon_searchRep hcs, noColon_limRaw hcl, noColon_offRaw hco,
              rfl, rfl, dbListQuery_provenance hq⟩
          · exact hcache e he'

theorem inv_getOne (st : SvcState) (id : String) (tenant : Option String)
    (hid : noColon id = true) (hct : noColonO tenant = true)
    (h : Inv st) : Inv (getCustomer st id tenant).2 := by
  obtain ⟨hcache, hids⟩ := h
  unfold getCustomer redisGet redisSetex
  dsimp only
  cases htr : truthy tenant with
  | none => exact ⟨hcache, hids⟩
  | some t =>
    have hnt : noColon t = true := noColonO_truthy hct htr
    dsimp only
    cases hru : st.redisUp with
    | false => exact ⟨hcache, hids⟩
    | true =>
      cases hf : st.cache.find? (fun e => e.1 == oneCacheKey id t) with
      | some w => exact ⟨hcache, hids⟩
      | none =>
        cases hrows : (st.store.filter (fun c => c.id == id && c.tenant_id == t)).map
            getProj with
        | nil => exact ⟨hcache, hids⟩
        | cons r rest =>
          refine ⟨?_, hids⟩
          intro e he
          rcases List.mem_cons.1 he with rfl | he'
          · refine Or.inr (Or.inl ⟨id, t, r, hid, hnt, rfl, rfl, ?_⟩)
            have hr : r ∈ (st.store.filter
                (fun c => c.id == id && c.tenant_id == t)).map getProj := by
              rw [hrows]; exact List.mem_cons_self _ _
            obtain ⟨c, hc, hcr⟩ := List.mem_map.1 hr
            obtain ⟨hcs, hcp⟩ := List.mem_filter.1 hc
            simp only [Bool.and_eq_true, beq_iff_eq] at hcp
            exact ⟨c, hcs, hcp.2, congrArg RowGet.id hcr⟩
          · exact hcache e he'

theorem inv_create (st : SvcState)
    (tenant email password full_name phone address : Option String) (now : Nat)
    (h : Inv st) :
    Inv (createCustomer st tenant email password full_name phone address now).2 := by
  obtain ⟨hcache, hidsA, hidsB⟩ := h
  unfold createCustomer redisDel
  dsimp only
  cases htr : truthy tenant with
  | none => exact ⟨hcache, hidsA, hidsB⟩
  | some t =>
    cases hte : truthy email with
    | none => exact ⟨hcache, hidsA, hidsB⟩
    | some e =>
      cases htp : truthy password with
      | none => exact ⟨hcache, hidsA, hidsB⟩
      | some pw =>
        dsimp only
        cases hdup : st.store.filter (fun c => c.tenant_id == t && c.email == e) with
        | cons hd tl => exact ⟨hcache, hidsA, hidsB⟩
        | nil =>
          dsimp only
          cases hru : st.redisUp with
          | false =>
            exact ⟨CacheOK_append_store hcache _,
              IdsOK_append_fresh hidsA hidsB _ rfl⟩
          | true =>
            exact ⟨CacheOK_filter_cache (CacheOK_append_store hcache _),
              IdsOK_append_fresh hidsA hidsB _ rfl⟩

theorem inv_update (st : SvcState) (id : String)
    (tenant full_name phone address : Option String)
    (loyalty_points : Option Int) (now : Nat) (h : Inv st) :
    Inv (updateCustomer st id tenant full_name phone address loyalty_points now).2 := by
  obtain ⟨hcache, hidsA, hidsB⟩ := h
  unfold updateCustomer redisDel
  dsimp only
  cases htr : truthy tenant with
  | none => exact ⟨hcache, hidsA, hidsB⟩
  | some t =>
    dsimp only
    by_cases hempty : (full_name.isNone && phone.isNone && address.isNone &&
        loyalty_points.isNone) = true
    · rw [if_pos hempty]
      exact ⟨hcache, hidsA, hidsB⟩
    · rw [if_neg hempty]
      cases hfe : st.store.filter (fun c => c.id == id && c.tenant_id == t) with
      | nil => exact ⟨hcache, hidsA, hidsB⟩
      | cons c rest =>
        have hgid : ∀ x : Customer,
            ((if x.id == id && x.tenant_id == t
              then applyUpdate full_name phone address loyalty_points now x
              else x) : Customer).id = x.id := by
          intro x
          by_cases hx : (x.id == id && x.tenant_id == t) = true
          · rw [if_pos hx]; rfl
          · rw [if_neg hx]
        have hgt : ∀ x : Customer,
            ((if x.id == id && x.tenant_id == t
              then applyUpdate full_name phone address loyalty_points now x
              else x) : Customer).tenant_id = x.tenant_id := by
          intro x
          by_cases hx : (x.id == id && x.tenant_id == t) = true
          · rw [if_pos hx]; rfl
          · rw [if_neg hx]
        have hmono : ∀ c' ∈ st.store,
            ∃ c'' ∈ st.store.map (fun d =>
              if d.id == id && d.tenant_id == t
              then applyUpdate full_name phone address loyalty_points now d
              else d),
              c''.tenant_id = c'.tenant_id ∧ c''.id = c'.id :=
          fun c' hc' => ⟨_, List.mem_map_of_mem _ hc', hgt c', hgid c'⟩
        have hcache' : ∀ e ∈ st.cache, EntryOK (st.store.map (fun d =>
            if d.id == id && d.tenant_id == t
            then applyUpdate full_name phone address loyalty_points now d
            else d)) e :=
          fun e he => EntryOK.mono hmono (hcache e he)
        dsimp only
        have hidsA' : ∀ d ∈ st.store.map (fun d =>
            if d.id == id && d.tenant_id == t
            then applyUpdate full_name phone address loyalty_points now d
            else d), ∃ k, d.id = idStr k ∧ k < st.nextId := by
          intro d hd
          obtain ⟨c', hc', hcd⟩ := List.mem_map.1 hd
          obtain ⟨k, hk, hklt⟩ := hidsA c' hc'
          exact ⟨k, by rw [← hcd, hgid c', hk], hklt⟩
        have hidsB' : (st.store.map (fun d =>
            if d.id == id && d.tenant_id == t
            then applyUpdate full_name phone address loyalty_points now d
            else d)).Pairwise (fun a b => a.id ≠ b.id) := by
          refine List.pairwise_map.2 (hidsB.imp ?_)
          intro a b hab
          rw [hgid a, hgid b]
          exact hab
        cases hru : st.redisUp with
        | false => exact ⟨hcache', hidsA', hidsB'⟩
        | true => exact ⟨CacheOK_filter_cache (CacheOK_filter_cache hcache'),
            hidsA', hidsB'⟩

theorem inv_stats (st : SvcState) (t : String) (hnt : noColon t = true)
    (h : Inv st) : Inv (statsTenant st t).2 := by
  obtain ⟨hcache, hids⟩ := h
  unfold statsTenant redisGet redisSetex
  dsimp only
  cases hru : st.redisUp with
  | false => exact ⟨hcache, hids⟩
  | true =>
    cases hf : st.cache.find? (fun e => e.1 == statsCacheKey t) with
    | some w => exact ⟨hcache, hids⟩
    | none =>
      refine ⟨?_, hids⟩
      intro e he
      rcases List.mem_cons.1 he with rfl | he'
      · exact Or.inr (Or.inr ⟨t, _, hnt, rfl, rfl⟩)
      · exact hcache e he'

theorem inv_step (st : SvcState) (op : Op) (hcf : CFOp op = true) (h : Inv st) :
    Inv (step st op).2 := by
  cases op with
  | list tenant search lim off =>
    simp only [CFOp, Bool.and_eq_true] at hcf
    exact inv_list st tenant search lim off hcf.1.1.1 hcf.1.1.2 hcf.1.2 hcf.2 h
  | getOne id tenant =>
    simp only [CFOp, Bool.and_eq_true] at hcf
    exact inv_getOne st id tenant hcf.1 hcf.2 h
  | create tenant email password full_name phone address now =>
    exact inv_create st tenant email password full_name phone address now h
  | update id tenant full_name phone address loyalty_points now =>
    exact inv_update st id tenant full_name phone address loyalty_points now h
  | stats tenant => exact inv_stats st tenant hcf h

theorem inv_runOps (ops : List Op) : ∀ st : SvcState,
    (∀ op ∈ ops, CFOp op = true) → Inv st → Inv (runOps st ops) := by
  induction ops with
  | nil => intro st _ h; exact h
  | cons op ops ih =>
    intro st hcf h
    exact ih _ (fun o ho => hcf o (List.mem_cons_of_mem _ ho))
      (inv_step st op (hcf op (List.mem_cons_self _ _)) h)

theorem inv_init : Inv initState :=
  ⟨fun e he => absurd he (List.not_mem_nil e),
   fun c hc => absurd hc (List.not_mem_nil c), List.Pairwise.nil⟩

/-! ### Isolation of each read, given the invariant -/

theorem eq_of_pairwise_ne : ∀ {l : List Customer},
    l.Pairwise (fun a b => a.id ≠ b.id) →
    ∀ c x : Customer, c ∈ l → x ∈ l → c.id = x.id → c = x := by
  intro l
  induction l with
  | nil => intro _ c x hc; cases hc
  | cons a as ih =>
    intro hp c x hc hx hid
    obtain ⟨ha, hp'⟩ := List.pairwise_cons.1 hp
    rcases List.mem_cons.1 hc with rfl | hc'
    · rcases List.mem_cons.1 hx with rfl | hx'
      · rfl
      · exact absurd hid (ha x hx')
    · rcases List.mem_cons.1 hx with rfl | hx'
      · exact absurd hid.symm (ha c hc')
      · exact ih hp' c x hc' hx' hid

theorem list_read_isolated (st : SvcState) (B : String)
    (search lim off : Option String)
    (hinv : Inv st) (hB : noColon B = true) (hs : noColonO search = true)
    (hl : noColonO lim = true) (ho : noColonO off = true)
    (v : CachedVal) (st' : SvcState)
    (h : listCustomers st (some B) search lim off = (.ok v, st')) :
    ∃ p, v = .page p ∧ ∀ r ∈ p.customers,
      ∃ c ∈ st.store, c.tenant_id = B ∧ c.id = r.id := by
  obtain ⟨hcache, hids⟩ := hinv
  by_cases hBe : B = ""
  · simp [listCustomers, truthy, hBe] at h
  · have htr : truthy (some B) = some B := by simp [truthy, hBe]
    unfold listCustomers redisGet redisSetex at h
    rw [htr] at h
    dsimp only at h
    cases hru : st.redisUp with
    | false => rw [hru] at h; simp at h
    | true =>
      rw [hru] at h
      dsimp only at h
      cases hf : st.cache.find? (fun e =>
          e.1 == listCacheKey B (searchRep (truthy search)) (limRaw lim) (offRaw off)) with
      | some w =>
        rw [hf] at h
        dsimp only [Option.map] at h
        injection h with h1 h2
        injection h1 with h1
        have hmem := List.mem_of_find?_eq_some hf
        have hpred := List.find?_some hf
        have hkey : w.1 =
            listCacheKey B (searchRep (truthy search)) (limRaw lim) (offRaw off) := by
          simpa using hpred
        rcases hcache w hmem with
          ⟨t2, s2, l2, o2, p, hnt, hns, hnl, hno, hk, hv, hp⟩ |
          ⟨i2, t2, row, hi2, hnt2, hk, hv, hc⟩ | ⟨t2, sr, hnt2, hk, hv⟩
        · have hkeys : listCacheKey t2 s2 l2 o2 =
              listCacheKey B (searchRep (truthy search)) (limRaw lim) (offRaw off) := by
            rw [← hk, hkey]
          obtain ⟨ht2B, -, -, -⟩ := listKey_inj (noColon_spec hnt) (noColon_spec hns)
            (noColon_spec hnl) (noColon_spec hB)
            (noColon_spec (noColon_searchRep hs)) (noColon_spec (noColon_limRaw hl)) hkeys
          refine ⟨p, by rw [← h1, hv], fun r hr => ?_⟩
          obtain ⟨c, hc, hct, hci⟩ := hp r hr
          exact ⟨c, hc, by rw [hct, ht2B], hci⟩
        · exact absurd (hk.symm.trans hkey).symm
            (listKey_ne_oneKey B (searchRep (truthy search)) (limRaw lim) (offRaw off) i2 t2)
        · exact absurd (hk.symm.trans hkey).symm
            (listKey_ne_statsKey (noColon_spec hB) (noColon_spec hnt2))
      | none =>
        rw [hf] at h
        dsimp only [Option.map] at h
        cases hq : dbListQuery st.store B (truthy search) (effLimit lim) (effOffset off) with
        | error err => rw [hq] at h; simp at h
        | ok rows =>
          rw [hq] at h
          dsimp only at h
          injection h with h1 h2
          injection h1 with h1
          exact ⟨⟨rows, dbCountQuery st.store B (truthy search), effLimit lim, effOffset off⟩,
            h1.symm, fun r hr => dbListQuery_provenance hq r hr⟩

theorem getOne_read_isolated (st : SvcState) (B i : String)
    (hinv : Inv st) (hB : noColon B = true) (hi : noColon i = true)
    (v : CachedVal) (st' : SvcState)
    (h : getCustomer st i (some B) = (.ok v, st')) :
    ∃ row, v = .single row ∧ ∃ c ∈ st.store, c.tenant_id = B ∧ c.id = row.id := by
  obtain ⟨hcache, hids⟩ := hinv
  by_cases hBe : B = ""
  · simp [getCustomer, truthy, hBe] at h
  · have htr : truthy (some B) = some B := by simp [truthy, hBe]
    unfold getCustomer redisGet redisSetex at h
    rw [htr] at h
    dsimp only at h
    cases hru : st.redisUp with
    | false => rw [hru] at h; simp at h
    | true =>
      rw [hru] at h
      dsimp only at h
      cases hf : st.cache.find? (fun e => e.1 == oneCacheKey i B) with
      | some w =>
        rw [hf] at h
        dsimp only [Option.map] at h
        injection h with h1 h2
        injection h1 with h1
        have hmem := List.mem_of_find?_eq_some hf
        have hpred := List.find?_some hf
        have hkey : w.1 = oneCacheKey i B := by simpa using hpred
        rcases hcache w hmem with
          ⟨t2, s2, l2, o2, p, hnt, hns, hnl, hno, hk, hv, hp⟩ |
          ⟨i2, t2, row, hi2, hnt2, hk, hv, hc⟩ | ⟨t2, sr, hnt2, hk, hv⟩
        · exact absurd (hk.symm.trans hkey)
            (listKey_ne_oneKey t2 s2 l2 o2 i B)
        · obtain ⟨hii, ht2B⟩ := oneKey_inj (noColon_spec hi2) (noColon_spec hi)
            (hk.symm.trans hkey)
          obtain ⟨c, hc', hct, hci⟩ := hc
          exact ⟨row, by rw [← h1, hv], c, hc', by rw [hct, ht2B], hci⟩
        · exact absurd (hk.symm.trans hkey).symm (oneKey_ne_statsKey i B t2)
      | none =>
        rw [hf] at h
        dsimp only [Option.map] at h
        cases hrows : (st.store.filter (fun c => c.id == i && c.tenant_id == B)).map
            getProj with
        | nil => rw [hrows] at h; simp at h
        | cons r rest =>
          rw [hrows] at h
          dsimp only at h
          injection h with h1 h2
          injection h1 with h1
          have hr : r ∈ (st.store.filter
              (fun c => c.id == i && c.tenant_id == B)).map getProj := by
            rw [hrows]; exact List.mem_cons_self _ _
          obtain ⟨c, hc, hcr⟩ := List.mem_map.1 hr
          obtain ⟨hcs, hcp⟩ := List.mem_filter.1 hc
          simp only [Bool.and_eq_true, beq_iff_eq] at hcp
          exact ⟨r, h1.symm, c, hcs, hcp.2, congrArg RowGet.id hcr⟩

theorem stats_read_shape (st : SvcState) (B : String)
    (hinv : Inv st) (hB : noColon B = true)
    (v : CachedVal) (st' : SvcState)
    (h : statsTenant st B = (.ok v, st')) : ∃ sr, v = .stats sr := by
  obtain ⟨hcache, hids⟩ := hinv
  unfold statsTenant redisGet redisSetex at h
  dsimp only at h
  cases hru : st.redisUp with
  | false => rw [hru] at h; simp at h
  | true =>
    rw [hru] at h
    dsimp only at h
    cases hf : st.cache.find? (fun e => e.1 == statsCacheKey B) with
    | some w =>
      rw [hf] at h
      dsimp only [Option.map] at h
      injection h with h1 h2
      injection h1 with h1
      have hmem := List.mem_of_find?_eq_some hf
      have hpred := List.find?_some hf
      have hkey : w.1 = statsCacheKey B := by simpa using hpred
      rcases hcache w hmem with
        ⟨t2, s2, l2, o2, p, hnt, hns, hnl, hno, hk, hv, hp⟩ |
        ⟨i2, t2, row, hi2, hnt2, hk, hv, hc⟩ | ⟨t2, sr, hnt2, hk, hv⟩
      · exact absurd (hk.symm.trans hkey)
          (listKey_ne_statsKey (noColon_spec hnt) (noColon_spec hB))
      · exact absurd (hk.symm.trans hkey) (oneKey_ne_statsKey i2 t2 B)
      · exact ⟨sr, by rw [← h1, hv]⟩
    | none =>
      rw [hf] at h
      dsimp only [Option.map] at h
      injection h with h1 h2
      injection h1 with h1
      exact ⟨_, h1.symm⟩

/-- C6 amended: provided every operation's tenant id, search string,
pagination strings and customer id are colon-free (so that the colon-joined
cache keys are unambiguous), every list / get-one response scoped to tenant
B contains only rows of tenant-B customers — in particular never a row of a
customer of any other tenant A, even one sharing the same id or email — and
a stats response scoped to B contains no customer row at all.  This covers
both cache-served and store-served responses of every state reachable from
a fresh deployment. -/
theorem tenant_isolation_colon_free (ops : List Op)
    (hops : ∀ op ∈ ops, CFOp op = true) (st : SvcState)
    (hst : st = runOps initState ops) (A B : String) (hAB : A ≠ B)
    (search lim off : Option String) (i : String)
    (hB : noColon B = true) (hs : noColonO search = true)
    (hl : noColonO lim = true) (ho : noColonO off = true)
    (hi : noColon i = true) :
    (∀ v st', listCustomers st (some B) search lim off = (.ok v, st') →
      ∃ p, v = .page p ∧ ∀ r ∈ p.customers,
        (∃ c ∈ st.store, c.tenant_id = B ∧ c.id = r.id) ∧
        ∀ x ∈ st.store, x.tenant_id = A → r.id ≠ x.id) ∧
    (∀ v st', getCustomer st i (some B) = (.ok v, st') →
      ∃ row, v = .single row ∧
        (∃ c ∈ st.store, c.tenant_id = B ∧ c.id = row.id) ∧
        ∀ x ∈ st.store, x.tenant_id = A → row.id ≠ x.id) ∧
    (∀ v st', statsTenant st B = (.ok v, st') → ∃ sr, v = .stats sr) := by
  have hinv : Inv st := hst ▸ inv_runOps ops initState hops inv_init
  have hpw : st.store.Pairwise (fun a b => a.id ≠ b.id) := hinv.2.2
  refine ⟨?_, ?_, ?_⟩
  · intro v st' h
    obtain ⟨p, hv, hp⟩ := list_read_isolated st B search lim off hinv hB hs hl ho v st' h
    refine ⟨p, hv, fun r hr => ⟨hp r hr, ?_⟩⟩
    intro x hx hxA hrx
    obtain ⟨c, hc, hcB, hci⟩ := hp r hr
    have hcx : c = x := eq_of_pairwise_ne hpw c x hc hx (by rw [hci, hrx])
    apply hAB
    rw [← hxA, ← hcx, hcB]
  · intro v st' h
    obtain ⟨row, hv, c, hc, hcB, hci⟩ := getOne_read_isolated st B i hinv hB hi v st' h
    refine ⟨row, hv, ⟨c, hc, hcB, hci⟩, ?_⟩
    intro x hx hxA hrx
    have hcx : c = x := eq_of_pairwise_ne hpw c x hc hx (by rw [hci, hrx])
    apply hAB
    rw [← hxA, ← hcx, hcB]
  · intro v st' h
    exact stats_read_shape st B hinv hB v st' h

/-- C6 witness: one colon-free trace (a single create under tenant `t`),
then the three reads scoped to tenant `t` against foreign tenant `u`. -/
theorem tenant_isolation_colon_free_witness :
    (∀ v st', listCustomers
        (runOps initState [.create (some "t") (some "a@x") (some "pw") none none none 1])
        (some "t") none none none = (.ok v, st') →
      ∃ p, v = .page p ∧ ∀ r ∈ p.customers,
        (∃ c ∈ (runOps initState
            [.create (some "t") (some "a@x") (some "pw") none none none 1]).store,
          c.tenant_id = "t" ∧ c.id = r.id) ∧
        ∀ x ∈ (runOps initState
            [.create (some "t") (some "a@x") (some "pw") none none none 1]).store,
          x.tenant_id = "u" → r.id ≠ x.id) ∧
    (∀ v st', getCustomer
        (runOps initState [.create (some "t") (some "a@x") (some "pw") none none none 1])
        "1" (some "t") = (.ok v, st') →
      ∃ row, v = .single row ∧
        (∃ c ∈ (runOps initState
            [.create (some "t") (some "a@x") (some "pw") none none none 1]).store,
          c.tenant_id = "t" ∧ c.id = row.id) ∧
        ∀ x ∈ (runOps initState
            [.create (some "t") (some "a@x") (some "pw") none none none 1]).store,
          x.tenant_id = "u" → row.id ≠ x.id) ∧
    (∀ v st', statsTenant
        (runOps initState [.create (some "t") (some "a@x") (some "pw") none none none 1])
        "t" = (.ok v, st') → ∃ sr, v = .stats sr) :=
  tenant_isolation_colon_free
    [.create (some "t") (some "a@x") (some "pw") none none none 1] (by decide)
    (runOps initState [.create (some "t") (some "a@x") (some "pw") none none none 1]) rfl
    "u" "t" (by decide) none none none "1" (by decide) (by decide) (by decide) (by decide)
    (by decide)

/-- C6 counterexample: with a tenant id containing a colon the cache keys
collide.  Tenant `t` lists with search `a:all`, caching a page under the key
`customers:t:a:all:50:0`; tenant `t:a` then lists with no search, whose key
is the same string, and is served tenant `t`'s page: the response scoped to
tenant `t:a` contains the row of tenant `t`'s customer (id "1"), although no
customer of tenant `t:a` exists at all. -/
theorem tenant_colon_cache_collision_counterexample :
    (listCustomers (runOps initState
        [.create (some "t") (some "ba:allc@x") (some "pw") none none none 1,
         .list (some "t") (some "a:all") none none])
      (some "t:a") none none none).1 =
      .ok (.page ⟨[⟨"1", "ba:allc@x", none, none, none, 1, 1⟩], 1, some 50, some 0⟩) ∧
    (runOps initState
        [.create (some "t") (some "ba:allc@x") (some "pw") none none none 1,
         .list (some "t") (some "a:all") none none]).store.all
      (fun c => !(c.tenant_id == "t:a")) = true ∧
    (runOps initState
        [.create (some "t") (some "ba:allc@x") (some "pw") none none none 1,
         .list (some "t") (some "a:all") none none]).store.any
      (fun c => c.tenant_id == "t" && c.id == "1") = true ∧
    ("t" : String) ≠ "t:a" := by
  decide

end CustomersService
